import Mathlib

/-!
# kite_go_api: validator, pagination filters and the Word record store

A shallow embedding of `internal/validator/validator.go`,
`internal/data/filters.go`, `internal/data/words.go`, `internal/data/tokens.go`,
`internal/data/userid.go` and the two handlers of `cmd/api/words.go` that
drive the word store.

Conventions of the embedding

* Go `int` is the 64-bit two's complement integer: values are `Int`, and every
  arithmetic result is passed through `wrapInt`.
* A Go `string` is a Lean `String`. `strings.HasPrefix` and
  `strings.TrimPrefix` compare bytes; on well-formed UTF-8 text a byte prefix
  is the same thing as a character prefix, which is what the model compares.
* A Go `map[string]string` is an association list in insertion order; keys are
  looked up with `List.lookup`, and `len` is the length of the list (the only
  writer, `AddError`, never inserts a key that is already present).
* A function that can `panic` returns `Except String`, the error side
  carrying the panic message.
* The database driver is an oracle: the outcome of the one statement a method
  executes is an argument of the method.
* Go `len` of a string counts the bytes of its UTF-8 encoding (`goLen`).
* Library calls whose result the code only passes on (`rand.Read`,
  `sha256.Sum256`, `strconv.Quote`, `strconv.Unquote`) are arguments as well.
-/

namespace Kite

deriving instance DecidableEq for Except

/-! ## Go integers -/

/-- Two's complement wraparound of a mathematical integer into Go's 64-bit `int`. -/
def wrapInt (x : Int) : Int := (x + 2 ^ 63) % 2 ^ 64 - 2 ^ 63

/-- Largest value of Go's 64-bit `int`. -/
def maxInt : Int := 2 ^ 63 - 1

/-- Smallest value of Go's 64-bit `int`. -/
def minInt : Int := -(2 ^ 63)

/-- Go `a + b` on `int`. -/
def goAdd (a b : Int) : Int := wrapInt (a + b)

/-- Go `a - b` on `int`. -/
def goSub (a b : Int) : Int := wrapInt (a - b)

/-- Go `a * b` on `int`. -/
def goMul (a b : Int) : Int := wrapInt (a * b)

/-- Go `a / b` on `int`: truncated division, a run-time panic when `b` is zero. -/
def goDiv (a b : Int) : Except String Int :=
  if b = 0 then .error "runtime error: integer divide by zero"
  else .ok (wrapInt (Int.tdiv a b))

/-! ## Go strings -/

/-- Go `strings.HasPrefix(s, p)`. -/
def HasPrefix (s p : String) : Bool := p.data.isPrefixOf s.data

/-- Go `strings.TrimPrefix(s, p)`: `s` without the leading `p`, or `s` itself. -/
def TrimPrefix (s p : String) : String :=
  if HasPrefix s p then ⟨s.data.drop p.data.length⟩ else s

/-! ## internal/validator/validator.go -/

/-- The `Validator` struct: its `Errors` map, allocated by `New`. -/
structure Validator where
  Errors : List (String × String)
  deriving DecidableEq, Repr

/-- `validator.New()`: a validator with an empty map. -/
def New : Validator := ⟨[]⟩

/-- `Valid`: `len(v.Errors) == 0`. -/
def Validator.Valid (v : Validator) : Bool := v.Errors.length == 0

/-- `AddError`: store the message unless the key already has one. -/
def Validator.AddError (v : Validator) (key message : String) : Validator :=
  match v.Errors.lookup key with
  | some _ => v
  | none => ⟨v.Errors ++ [(key, message)]⟩

/-- `Check`: `AddError` when `ok` is false. -/
def Validator.Check (v : Validator) (ok : Bool) (key message : String) : Validator :=
  if !ok then v.AddError key message else v

/-- `IsPermittedValue`: linear search of the permitted values. -/
def IsPermittedValue {T : Type} [DecidableEq T] (value : T) : List T → Bool
  | [] => false
  | v :: rest => if v = value then true else IsPermittedValue value rest

/-- Whether the error map has an entry under `key` (`_, exists := m[key]`). -/
def Validator.hasKey (v : Validator) (key : String) : Bool :=
  (v.Errors.lookup key).isSome

/-! ## internal/data/filters.go -/

/-- The `Filters` struct; the Go field `Sort` is `SortToken` here, `Sort` being reserved. -/
structure Filters where
  Page : Int
  PageSize : Int
  SortToken : String
  SortSafeList : List String
  deriving DecidableEq, Repr

/-- The `Metadata` struct; the Go zero value is all zeros. -/
structure Metadata where
  CurrentPage : Int := 0
  PageSize : Int := 0
  FirstPage : Int := 0
  LastPage : Int := 0
  TotalRecords : Int := 0
  deriving DecidableEq, Repr

/-- `calculateMetadata`; the division panics when `pageSize` is zero. -/
def calculateMetadata (totalRecords page pageSize : Int) : Except String Metadata :=
  if totalRecords = 0 then .ok {}
  else
    match goDiv (goSub (goAdd totalRecords pageSize) 1) pageSize with
    | .error msg => .error msg
    | .ok lastPage =>
      .ok { CurrentPage := page
            PageSize := pageSize
            FirstPage := 1
            LastPage := lastPage
            TotalRecords := totalRecords }

/-- `ValidateFilters`: the five checks, in source order. -/
def ValidateFilters (v : Validator) (f : Filters) : Validator :=
  let v := v.Check (decide (f.Page > 0)) "page" "must be greater than zero"
  let v := v.Check (decide (f.Page ≤ 10000000)) "page" "must be no greater than 10 million"
  let v := v.Check (decide (f.PageSize > 0)) "page_size" "must be greater than zero"
  let v := v.Check (decide (f.PageSize ≤ 1000)) "page_size" "must be a no greater than 1_000"
  v.Check (IsPermittedValue f.SortToken f.SortSafeList) "sort" "invalid sort value"

/-- The `range` loop of `sortColumn` over the remaining safe values. -/
def sortColumnLoop (sort : String) : List String → Except String String
  | [] => .error ("Unsafe sort parameter: " ++ sort)
  | safeValue :: rest =>
    if sort = safeValue then .ok (TrimPrefix sort "-") else sortColumnLoop sort rest

/-- `Filters.sortColumn`: panics when `Sort` is not in the safe list. -/
def Filters.sortColumn (f : Filters) : Except String String :=
  sortColumnLoop f.SortToken f.SortSafeList

/-- `Filters.sortDirection`. -/
def Filters.sortDirection (f : Filters) : String :=
  if HasPrefix f.SortToken "-" then "DESC" else "ASC"

/-- `Filters.limit`. -/
def Filters.limit (f : Filters) : Int := f.PageSize

/-- `Filters.offset`. -/
def Filters.offset (f : Filters) : Int := goMul (goSub f.Page 1) f.PageSize

/-! ## internal/data/models.go and internal/data/words.go -/

/-- The error values that travel through the record store: the two sentinels of
`models.go`, `sql.ErrNoRows`, and any other driver failure with its text. -/
inductive GoError where
  | ErrRecordNotFound
  | ErrEditConflict
  | sqlErrNoRows
  | backend (msg : String)
  deriving DecidableEq, Repr

/-- Go `errors.Is(err, target)`; none of these values wraps another. -/
def errorsIs (err target : GoError) : Bool := decide (err = target)

/-- The `Word` struct; `CreatedAt` is the instant as a number. -/
structure Word where
  ID : Int
  CreatedAt : Int
  TextValue : String
  Difficulty : String
  RelatedWords : List String
  UserId : Int
  Version : Int
  deriving DecidableEq, Repr

/-- `WordModel.Get`. `scan` is the outcome of the `SELECT ... WHERE id = $1`
row scan; it is consulted only when `id` is at least 1. -/
def WordModel.Get (scan : Except GoError Word) (id : Int) : Except GoError Word :=
  if id < 1 then .error .ErrRecordNotFound
  else
    match scan with
    | .error err =>
      if errorsIs err .sqlErrNoRows then .error .ErrRecordNotFound else .error err
    | .ok word => .ok word

/-- `WordModel.Update`. `scan` is the outcome of scanning the row returned by
`UPDATE ... WHERE id = $5 AND version = $6 RETURNING version` into
`word.Version`; the result is the word as the caller sees it afterwards and
the returned error (`none` for `nil`). -/
def WordModel.Update (scan : Except GoError Int) (word : Word) : Word × Option GoError :=
  match scan with
  | .error err =>
    if errorsIs err .sqlErrNoRows then (word, some .ErrRecordNotFound) else (word, some err)
  | .ok version => ({ word with Version := version }, none)

/-- What the driver hands back for the query of `GetAll`: the error of
`QueryContext`, then for every `rows.Next()` the outcome of `rows.Scan` (the
windowed count and the word), then `rows.Err()`. -/
structure RowsResult where
  queryErr : Option GoError
  rows : List (Except GoError (Int × Word))
  rowsErr : Option GoError

/-- The `for rows.Next()` loop of `GetAll`: `acc` is `words`, `total` is
`totalRecords`. Each scan stores the windowed count in `totalRecords`, the
word is appended, and `totalRecords++` follows. -/
def scanRows : List (Except GoError (Int × Word)) → List Word → Int →
    Except GoError (List Word × Int)
  | [], acc, total => .ok (acc, total)
  | .error err :: _, _, _ => .error err
  | .ok (count, word) :: rest, acc, _ => scanRows rest (acc ++ [word]) (goAdd count 1)

/-- The SQL text `GetAll` builds with `fmt.Sprintf`. -/
def getAllQuery (column direction : String) : String :=
  "SELECT count(*) OVER(), id, text_value, difficulty, related_words, user_id, created_at, version \n" ++
  "FROM words WHERE (to_tsvector('simple', text_value) @@ plainto_tsquery('simple', $1) OR $1 = '') " ++
  "AND (LOWER(difficulty) = LOWER($2) OR $2 = '')\n" ++
  "ORDER BY " ++ column ++ " " ++ direction ++ ", id ASC LIMIT $3 OFFSET $4"

/-- `WordModel.GetAll`. `db` answers the query text and its four arguments.
The outer `Except` is a panic (of `sortColumn`, or of the division in
`calculateMetadata`); inside is Go's `(words, metadata, err)`. -/
def WordModel.GetAll (db : String → String × String × Int × Int → RowsResult)
    (text difficulty : String) (filters : Filters) :
    Except String (List Word × Metadata × Option GoError) :=
  match filters.sortColumn with
  | .error msg => .error msg
  | .ok column =>
    let res := db (getAllQuery column filters.sortDirection)
      (text, difficulty, filters.limit, filters.offset)
    match res.queryErr with
    | some err => .ok ([], {}, some err)
    | none =>
      match scanRows res.rows [] 0 with
      | .error err => .ok ([], {}, some err)
      | .ok (words, totalRecords) =>
        match res.rowsErr with
        | some err => .ok ([], {}, some err)
        | none =>
          match calculateMetadata totalRecords filters.Page filters.PageSize with
          | .error msg => .error msg
          | .ok metadata => .ok (words, metadata, none)

/-! ## cmd/api/helpers.go and cmd/api/words.go -/

/-- Go `strings.Trim(s, cutset)`: leading and trailing characters of `cutset` removed. -/
def Trim (s cutset : String) : String :=
  ⟨((s.data.dropWhile (fun c => cutset.data.contains c)).reverse.dropWhile
    (fun c => cutset.data.contains c)).reverse⟩

/-- `readString`: the default stands in for an empty value. -/
def readString (s defaultValue : String) : String :=
  if s = "" then defaultValue else s

/-- What `qs.Get(key)` followed by `strconv.Atoi` can give: no value, a value
that is not an integer, or an integer. -/
inductive QueryInt where
  | absent
  | malformed
  | value (i : Int)
  deriving DecidableEq, Repr

/-- `readInt`: the integer read, and the validator after the call. -/
def readInt (raw : QueryInt) (key : String) (defaultValue : Int) (v : Validator) :
    Int × Validator :=
  match raw with
  | .absent => (defaultValue, v)
  | .malformed => (defaultValue, v.AddError key "must be an integer")
  | .value i => (i, v)

/-- The query string of a `GET /words` request, as far as `listWordsHandler`
uses it (`related_words` is read and never used). -/
structure ListQuery where
  text : String
  difficulty : String
  page : QueryInt
  page_size : QueryInt
  sort : String

/-- The safe list `listWordsHandler` installs. -/
def listSortSafeList : List String :=
  ["id", "text_value", "difficulty", "-id", "-text_value", "-difficulty"]

/-- The first half of `listWordsHandler`: the `Filters` it assembles from the
query string and the validator as `readInt` left it. -/
def listWordsFilters (q : ListQuery) : Filters × Validator :=
  let v := New
  let (page, v) := readInt q.page "page" 1 v
  let (pageSize, v) := readInt q.page_size "page_size" 20 v
  let sort := readString q.sort "id"
  let sort := if sort = "text" ∨ sort = "-text" then sort ++ "_value" else sort
  ({ Page := page, PageSize := pageSize, SortToken := sort, SortSafeList := listSortSafeList }, v)

/-- The responses a handler can send. -/
inductive Response where
  | badRequest
  | notFound
  | editConflict
  | failedValidation (errors : List (String × String))
  | serverError
  | okWord (word : Word)
  | okWords (words : List Word) (metadata : Metadata)
  deriving DecidableEq, Repr

/-- HTTP status of a response (`errors.go`). -/
def Response.status : Response → Nat
  | .badRequest => 400
  | .notFound => 404
  | .editConflict => 409
  | .failedValidation _ => 422
  | .serverError => 500
  | .okWord _ => 200
  | .okWords _ _ => 200

/-- `listWordsHandler`, with `GetAll` as the argument `getAll`. The result is
the sequence of responses it writes; after a `GetAll` error there is no
`return`, so the words response follows the server error. A failure of
`writeJSON` to encode or send is not part of the model. -/
def listWordsHandler
    (getAll : String → String → Filters → Except String (List Word × Metadata × Option GoError))
    (q : ListQuery) : Except String (List Response) :=
  let (filters, v) := listWordsFilters q
  let v := ValidateFilters v filters
  if !v.Valid then .ok [.failedValidation v.Errors]
  else
    match getAll (readString q.text "") (readString q.difficulty "") filters with
    | .error msg => .error msg
    | .ok (words, metadata, err) =>
      .ok ((if err.isSome then [Response.serverError] else []) ++ [.okWords words metadata])

/-- `readIDParam`: `parsed` is the result of `strconv.ParseInt` on the path parameter. -/
def readIDParam (parsed : Option Int) : Option Int :=
  match parsed with
  | none => none
  | some id => if id < 1 then none else some id

/-- The JSON body `updateWordHandler` decodes; a `nil` slice is `none`. -/
structure UpdateInput where
  Text : String
  Difficulty : String
  RelatedWords : Option (List String)
  UserId : Int

/-- `updateWordHandler`: `parsed` is the path id, `getScan` and `updateScan`
the outcomes of the two statements, `body` the outcome of `readJSON` (`none`
for an error). The result is the response the handler selects; a failure of
`writeJSON` to encode or send is not part of the model. -/
def updateWordHandler (parsed : Option Int) (getScan : Except GoError Word)
    (body : Option UpdateInput) (updateScan : Except GoError Int) : Response :=
  match readIDParam parsed with
  | none => .badRequest
  | some id =>
    match WordModel.Get getScan id with
    | .error err => if errorsIs err .ErrRecordNotFound then .notFound else .serverError
    | .ok word =>
      match body with
      | none => .badRequest
      | some input =>
        let word := if Trim input.Text " " ≠ "" then { word with TextValue := input.Text } else word
        let word :=
          if Trim input.Difficulty " " ≠ "" then { word with Difficulty := input.Difficulty }
          else word
        let word :=
          match input.RelatedWords with
          | some rw => { word with RelatedWords := rw }
          | none => word
        let word := if input.UserId > 0 then { word with UserId := input.UserId } else word
        match WordModel.Update updateScan word with
        | (_, some err) => if errorsIs err .ErrEditConflict then .editConflict else .serverError
        | (word, none) => .okWord word

/-! ## internal/data/words.go: validation, insert and delete -/

/-- Number of bytes of the UTF-8 encoding of a character. -/
def runeLen (c : Char) : Nat :=
  if c.toNat < 128 then 1 else if c.toNat < 2048 then 2 else if c.toNat < 65536 then 3 else 4

/-- Go `len(s)` on a string: the number of bytes of its UTF-8 encoding. -/
def goLen (s : String) : Nat := (s.data.map runeLen).sum

/-- `includes`: linear search of `values` for `v`. -/
def includes : List String → String → Bool
  | [], _ => false
  | w :: rest, v => if w = v then true else includes rest v

/-- `ValidateWord`: the four checks, in source order, with the keys of the source. -/
def ValidateWord (v : Validator) (word : Word) : Validator :=
  let v := v.Check (decide (Trim word.TextValue " " ≠ "")) "text" "word text must be provided"
  let v := v.Check (decide (goLen word.TextValue ≤ 255)) "title"
    "word text must be 255 or less characters"
  let difficulties := ["easy", "medium", "hard"]
  let v := v.Check (includes difficulties word.Difficulty) "difficulty"
    "difficulty must be one of: easy, medium, hard"
  v.Check (decide (word.UserId > 0)) "user_id" "user_id must be a valid user id number"

/-- `WordModel.Insert`. `db` answers the `INSERT ... RETURNING id, created_at`
statement for its four arguments (text, difficulty, related words, user id)
with the scanned `id` and `created_at` or an error; the result is the word as
the caller sees it afterwards and the returned error (`none` for `nil`). -/
def WordModel.Insert (db : String × String × List String × Int → Except GoError (Int × Int))
    (word : Word) : Word × Option GoError :=
  match db (word.TextValue, word.Difficulty, word.RelatedWords, word.UserId) with
  | .error err => (word, some err)
  | .ok (id, createdAt) => ({ word with ID := id, CreatedAt := createdAt }, none)

/-- `WordModel.Delete`. `exec` answers `DELETE FROM words WHERE id = $1` for the
id: the error of `ExecContext`, else the error or the value of `RowsAffected`. -/
def WordModel.Delete (exec : Int → Except GoError (Except GoError Int)) (id : Int) :
    Option GoError :=
  match exec id with
  | .error err => some err
  | .ok (.error err) => some err
  | .ok (.ok rowsAffected) => if rowsAffected = 0 then some .ErrRecordNotFound else none

/-- The statement `DELETE FROM words WHERE id = $1` on a table of words: the
table afterwards and the number of rows affected. -/
def deleteStmt (table : List Word) (id : Int) : List Word × Int :=
  (table.filter (fun w => decide (w.ID ≠ id)),
    ((table.filter (fun w => decide (w.ID = id))).length : Int))

/-- A driver that runs the delete statement on `table` without failing. -/
def tableExec (table : List Word) (id : Int) : Except GoError (Except GoError Int) :=
  .ok (.ok (deleteStmt table id).2)

/-! ## internal/data/tokens.go -/

/-- The eight bits of a byte, most significant first. -/
def byteBits (b : Fin 256) : List Nat :=
  [b.val / 128 % 2, b.val / 64 % 2, b.val / 32 % 2, b.val / 16 % 2,
   b.val / 8 % 2, b.val / 4 % 2, b.val / 2 % 2, b.val % 2]

/-- The alphabet of `base32.StdEncoding` (RFC 4648). -/
def base32Alphabet : List Char := "ABCDEFGHIJKLMNOPQRSTUVWXYZ234567".data

/-- The character that encodes a 5-bit value. -/
def base32Char (v : Nat) : Char := base32Alphabet.getD v 'A'

/-- A bit sequence cut into 5-bit values, the last one filled up with zero bits. -/
def quintets : List Nat → List Nat
  | a :: b :: c :: d :: e :: rest => (16 * a + 8 * b + 4 * c + 2 * d + e) :: quintets rest
  | [a, b, c, d] => [16 * a + 8 * b + 4 * c + 2 * d]
  | [a, b, c] => [16 * a + 8 * b + 4 * c]
  | [a, b] => [16 * a + 8 * b]
  | [a] => [16 * a]
  | [] => []

/-- Go `base32.StdEncoding.WithPadding(base32.NoPadding).EncodeToString(src)`,
after RFC 4648: the bits of `src` in groups of five, each group a character of
the alphabet, and no `=` at the end. -/
def base32EncodeNoPadding (src : List (Fin 256)) : String :=
  ⟨(quintets (src.flatMap byteBits)).map base32Char⟩

/-- The `Token` struct; `Expiry` is the instant as a number. -/
structure Token where
  PlainText : String
  Hash : List (Fin 256)
  UserID : Int
  Expiry : Int
  Scope : String
  deriving DecidableEq, Repr

/-- `generateToken`. `random` is the outcome of `rand.Read` on the 16-byte
buffer, `now` the clock, `sha256Sum` the digest of `crypto/sha256`. -/
def generateToken (sha256Sum : String → List (Fin 256)) (now : Int)
    (random : Except GoError (List (Fin 256))) (userID ttl : Int) (scope : String) :
    Except GoError Token :=
  match random with
  | .error err => .error err
  | .ok randomBytes =>
    let plainText := base32EncodeNoPadding randomBytes
    .ok { PlainText := plainText
          Hash := sha256Sum plainText
          UserID := userID
          Expiry := now + ttl
          Scope := scope }

/-- `ValidateTokenPlainText`. -/
def ValidateTokenPlainText (v : Validator) (tokenPlainText : String) : Validator :=
  let v := v.Check (decide (tokenPlainText ≠ "")) "token_plain_text" "required"
  v.Check (decide (goLen tokenPlainText = 26)) "token_plain_text" "too_long_or_too_short"

/-! ## internal/data/userid.go -/

/-- The two error kinds of `strconv`. -/
inductive StrconvErr where
  | ErrSyntax
  | ErrRange
  deriving DecidableEq, Repr

/-- The errors `UserID.UnmarshalJSON` returns: its own sentinel, or the
`*strconv.NumError` of `ParseInt` with the text it was given. -/
inductive UserIdError where
  | ErrInvalidUserIdFormat
  | numError (num : String) (err : StrconvErr)
  deriving DecidableEq, Repr

/-- Value of a decimal digit character. -/
def digitVal (c : Char) : Option Nat :=
  if 48 ≤ c.toNat ∧ c.toNat ≤ 57 then some (c.toNat - 48) else none

/-- Character of a decimal digit. -/
def digitChar (d : Nat) : Char := Char.ofNat (48 + d)

/-- The digit loop of `strconv.ParseUint(s, 10, 64)`: a character that is not a
digit is a syntax error, a value beyond 64 bits a range error. -/
def parseUintLoop : List Char → Nat → Except StrconvErr Nat
  | [], n => .ok n
  | c :: cs, n =>
    match digitVal c with
    | none => .error .ErrSyntax
    | some d =>
      if n ≥ 1844674407370955162 then .error .ErrRange
      else if n * 10 + d > 18446744073709551615 then .error .ErrRange
      else parseUintLoop cs (n * 10 + d)

/-- Go `strconv.ParseInt(s, 10, 64)`. -/
def ParseInt (s : String) : Except StrconvErr Int :=
  match s.data with
  | [] => .error .ErrSyntax
  | c :: cs =>
    let neg := decide (c = '-')
    let body := if c = '+' ∨ c = '-' then cs else c :: cs
    if body = [] then .error .ErrSyntax
    else
      match parseUintLoop body 0 with
      | .error err => .error err
      | .ok un =>
        if !neg ∧ un ≥ 9223372036854775808 then .error .ErrRange
        else if neg ∧ un > 9223372036854775808 then .error .ErrRange
        else .ok (if neg then -(un : Int) else (un : Int))

/-- Decimal text of a natural number. -/
def formatNat (n : Nat) : String :=
  if n = 0 then "0" else ⟨(Nat.digits 10 n).reverse.map digitChar⟩

/-- Go `fmt.Sprintf("%d", i)`. -/
def formatInt (i : Int) : String :=
  if i < 0 then "-" ++ formatNat (-i).toNat else formatNat i.toNat

/-- Go `strings.Split(s, sep)` for a separator of one character. -/
def Split (s : String) (sep : Char) : List String :=
  (s.data.splitOn sep).map String.mk

/-- `UserID.MarshalJSON`; `quote` is `strconv.Quote`. -/
def UserID.MarshalJSON (quote : String → String) (i : Int) : String :=
  quote ("ID-" ++ formatInt i)

/-- `UserID.UnmarshalJSON`; `unquote` is `strconv.Unquote` (`none` for an
error), `i` the receiver before the call. The result is the receiver after
the call and the returned error (`none` for `nil`). -/
def UserID.UnmarshalJSON (unquote : String → Option String) (i : Int) (jsonValue : String) :
    Int × Option UserIdError :=
  match unquote jsonValue with
  | none => (i, some .ErrInvalidUserIdFormat)
  | some unquotedJsonValue =>
    let parts := Split unquotedJsonValue '-'
    if parts.length ≠ 2 ∨ parts.getD 0 "" ≠ "ID" then (i, some .ErrInvalidUserIdFormat)
    else
      match ParseInt (parts.getD 1 "") with
      | .error err => (i, some (.numError (parts.getD 1 "") err))
      | .ok id => (id, none)

/-- `strconv.Quote` on a text in which no character needs an escape: the text
between double quotes. -/
def plainQuote (s : String) : String := "\"" ++ s ++ "\""

/-- `strconv.Unquote` on a double-quoted text without escapes: the text
between the quotes. -/
def plainUnquote (s : String) : Option String :=
  match s.data with
  | '"' :: rest =>
    if rest.getLast? = some '"' ∧ '"' ∉ rest.dropLast ∧ '\\' ∉ rest.dropLast
      ∧ '\n' ∉ rest.dropLast then some ⟨rest.dropLast⟩
    else none
  | _ => none

/-! ## Supporting lemmas -/

theorem wrapInt_of_range (x : Int) (h1 : minInt ≤ x) (h2 : x ≤ maxInt) : wrapInt x = x := by
  unfold wrapInt; unfold minInt at h1; unfold maxInt at h2
  omega

theorem ceil_div_least (a b : Int) (hb : 0 < b) :
    a ≤ ((a + b - 1) / b) * b ∧ ∀ k : Int, a ≤ k * b → (a + b - 1) / b ≤ k := by
  constructor
  · have h := Int.lt_ediv_add_one_mul_self (a + b - 1) hb
    nlinarith
  · intro k hk
    have h := Int.ediv_mul_le (a + b - 1) (ne_of_gt hb)
    by_contra hlt
    push_neg at hlt
    have : (k + 1) * b ≤ (a + b - 1) / b * b := by
      apply mul_le_mul_of_nonneg_right _ (le_of_lt hb)
      omega
    nlinarith

theorem ceil_div_eq (a b : Int) (hb : 0 < b) :
    ⌈(a : ℚ) / (b : ℚ)⌉ = (a + b - 1) / b := by
  obtain ⟨h1, h2⟩ := ceil_div_least a b hb
  have hbq : (0 : ℚ) < (b : ℚ) := by exact_mod_cast hb
  apply le_antisymm
  · rw [Int.ceil_le, div_le_iff₀ hbq]
    exact_mod_cast h1
  · apply h2
    have := Int.le_ceil ((a : ℚ) / (b : ℚ))
    rw [div_le_iff₀ hbq] at this
    exact_mod_cast this

theorem calculateMetadata_exact (total page pageSize : Int) (htot : 0 < total)
    (hps : 1 ≤ pageSize) (hmax : total + pageSize - 1 ≤ maxInt) :
    calculateMetadata total page pageSize =
      .ok { CurrentPage := page, PageSize := pageSize, FirstPage := 1,
            LastPage := (total + pageSize - 1) / pageSize, TotalRecords := total } := by
  have hne : total ≠ 0 := by omega
  have hps0 : pageSize ≠ 0 := by omega
  have hq0 : 0 ≤ (total + pageSize - 1) / pageSize := Int.ediv_nonneg (by omega) (by omega)
  have hqle : (total + pageSize - 1) / pageSize ≤ total + pageSize - 1 :=
    Int.ediv_le_self _ (by omega)
  unfold maxInt at hmax
  have e1 : goSub (goAdd total pageSize) 1 = total + pageSize - 1 := by
    unfold goSub goAdd wrapInt
    omega
  have e2 : Int.tdiv (total + pageSize - 1) pageSize = (total + pageSize - 1) / pageSize :=
    Int.tdiv_eq_ediv (by omega) (by omega)
  have e3 : wrapInt ((total + pageSize - 1) / pageSize) = (total + pageSize - 1) / pageSize :=
    wrapInt_of_range _ (by unfold minInt; omega) (by unfold maxInt; omega)
  simp [calculateMetadata, hne, goDiv, hps0, e1, e2, e3]

theorem calculateMetadata_ok (total page pageSize : Int) (h : pageSize ≠ 0) :
    ∃ m, calculateMetadata total page pageSize = .ok m := by
  by_cases h0 : total = 0
  · exact ⟨{}, by simp [calculateMetadata, h0]⟩
  · exact ⟨_, by simp only [calculateMetadata, h0, goDiv, h, if_false]; rfl⟩

theorem hasKey_AddError (v : Validator) (k m k' : String) :
    (v.AddError k m).hasKey k' = (v.hasKey k' || decide (k' = k)) := by
  unfold Validator.AddError Validator.hasKey
  cases h : v.Errors.lookup k with
  | some x =>
    by_cases hk : k' = k
    · subst hk; simp [h]
    · simp [hk]
  | none =>
    simp only [List.lookup_append]
    cases h' : v.Errors.lookup k' with
    | some y => simp
    | none =>
      by_cases hk : k' = k
      · subst hk; simp
      · have hb : (k' == k) = false := by simpa using hk
        simp [List.lookup, hb, hk]

theorem hasKey_Check (v : Validator) (ok : Bool) (k m k' : String) :
    (v.Check ok k m).hasKey k' = (v.hasKey k' || (!ok && decide (k' = k))) := by
  unfold Validator.Check
  cases ok <;> simp [hasKey_AddError]

theorem Valid_Check (v : Validator) (ok : Bool) (k m : String) :
    (v.Check ok k m).Valid = (v.Valid && ok) := by
  unfold Validator.Check
  cases ok
  · simp only [Bool.not_false, if_true, Bool.and_false]
    unfold Validator.AddError
    cases h : v.Errors.lookup k with
    | some x =>
      simp only [Validator.Valid]
      cases hv : v.Errors with
      | nil => simp [hv] at h
      | cons a l => simp
    | none => simp [Validator.Valid]
  · simp

theorem IsPermittedValue_iff_mem (value : String) (l : List String) :
    IsPermittedValue value l = true ↔ value ∈ l := by
  induction l with
  | nil => simp [IsPermittedValue]
  | cons a l ih =>
    by_cases h : a = value
    · simp [IsPermittedValue, h]
    · have h' : ¬ value = a := fun e => h e.symm
      simp [IsPermittedValue, h, h', ih]

theorem ValidateFilters_hasKey (v : Validator) (f : Filters) (k : String) :
    (ValidateFilters v f).hasKey k =
      (v.hasKey k ||
        ((!decide (f.Page > 0) || !decide (f.Page ≤ 10000000)) && decide (k = "page")) ||
        ((!decide (f.PageSize > 0) || !decide (f.PageSize ≤ 1000)) && decide (k = "page_size")) ||
        (!IsPermittedValue f.SortToken f.SortSafeList && decide (k = "sort"))) := by
  simp only [ValidateFilters, hasKey_Check]
  cases v.hasKey k <;> cases decide (f.Page > 0) <;> cases decide (f.Page ≤ 10000000) <;>
    cases decide (f.PageSize > 0) <;> cases decide (f.PageSize ≤ 1000) <;>
    cases IsPermittedValue f.SortToken f.SortSafeList <;> cases decide (k = "page") <;>
    cases decide (k = "page_size") <;> cases decide (k = "sort") <;> rfl

theorem ValidateFilters_Valid (v : Validator) (f : Filters) :
    (ValidateFilters v f).Valid =
      (v.Valid && decide (f.Page > 0) && decide (f.Page ≤ 10000000) &&
        decide (f.PageSize > 0) && decide (f.PageSize ≤ 1000) &&
        IsPermittedValue f.SortToken f.SortSafeList) := by
  simp only [ValidateFilters, Valid_Check]

theorem listWordsFilters_fst_sort (q : ListQuery) :
    (listWordsFilters q).1.SortToken =
      (if readString q.sort "id" = "text" ∨ readString q.sort "id" = "-text"
        then readString q.sort "id" ++ "_value" else readString q.sort "id") ∧
    (listWordsFilters q).1.SortSafeList = listSortSafeList := by
  unfold listWordsFilters
  cases q.page <;> cases q.page_size <;> simp [readInt]

theorem listWordsFilters_snd_sort (q : ListQuery) :
    (listWordsFilters q).2.hasKey "sort" = false := by
  unfold listWordsFilters
  cases q.page <;> cases q.page_size <;> simp only [readInt, hasKey_AddError, New] <;> decide

theorem remapped_permitted_iff (t : String) :
    IsPermittedValue
      (if readString t "id" = "text" ∨ readString t "id" = "-text"
        then readString t "id" ++ "_value" else readString t "id") listSortSafeList = true ↔
    t ∈ ["", "id", "text", "difficulty", "-id", "-text", "-difficulty",
      "text_value", "-text_value"] := by
  rw [IsPermittedValue_iff_mem]
  by_cases h0 : t = ""
  · subst h0; decide
  · by_cases h1 : t = "text"
    · subst h1; decide
    · by_cases h2 : t = "-text"
      · subst h2; decide
      · simp [readString, h0, h1, h2, listSortSafeList]
        tauto

theorem sortColumnLoop_eq (s : String) (l : List String) :
    sortColumnLoop s l =
      if s ∈ l then .ok (TrimPrefix s "-") else .error ("Unsafe sort parameter: " ++ s) := by
  induction l with
  | nil => simp [sortColumnLoop]
  | cons a l ih =>
    by_cases h : s = a
    · simp [sortColumnLoop, h]
    · simp only [sortColumnLoop, h, if_false, ih, List.mem_cons, false_or]

theorem HasPrefix_dash (s : String) :
    (HasPrefix s "-" = true → s = "-" ++ TrimPrefix s "-") ∧
    (HasPrefix s "-" = false → TrimPrefix s "-" = s ∧ ¬ ∃ rest : String, s = "-" ++ rest) := by
  obtain ⟨l⟩ := s
  cases l with
  | nil =>
    refine ⟨by simp [HasPrefix], fun _ => ⟨by simp [TrimPrefix, HasPrefix], ?_⟩⟩
    rintro ⟨rest, hr⟩
    have := congrArg String.data hr
    simp at this
  | cons c cs =>
    by_cases hc : c = '-'
    · subst hc
      refine ⟨fun _ => ?_, by simp [HasPrefix]⟩
      apply String.ext
      simp [TrimPrefix, HasPrefix]
    · refine ⟨by simp [HasPrefix, hc, Ne.symm hc], fun _ => ⟨?_, ?_⟩⟩
      · simp [TrimPrefix, HasPrefix, hc, Ne.symm hc]
      · rintro ⟨rest, hr⟩
        have := congrArg String.data hr
        simp at this
        exact hc this.1

/-- On a non-empty result set whose rows all carry the windowed count `n`, the
loop of `GetAll` ends with `totalRecords = n + 1`. -/
theorem scanRows_total (n : Int) (rows : List (Except GoError (Int × Word)))
    (hne : rows ≠ []) (hall : ∀ r ∈ rows, ∃ w, r = .ok (n, w)) (acc : List Word) (t : Int) :
    ∃ words, scanRows rows acc t = .ok (words, goAdd n 1) := by
  induction rows generalizing acc t with
  | nil => exact absurd rfl hne
  | cons r rest ih =>
    obtain ⟨w, rfl⟩ := hall r (List.mem_cons_self _ _)
    cases rest with
    | nil => exact ⟨acc ++ [w], rfl⟩
    | cons r' rest' =>
      simp only [scanRows]
      exact ih (by simp) (fun x hx => hall x (List.mem_cons_of_mem _ hx)) _ _

theorem includes_iff_mem (values : List String) (v : String) :
    includes values v = true ↔ v ∈ values := by
  induction values with
  | nil => simp [includes]
  | cons a l ih =>
    by_cases h : a = v
    · simp [includes, h]
    · have h' : ¬ v = a := fun e => h e.symm
      simp [includes, h, h', ih]

/-- What `ValidateWord` does: on a fresh validator it is valid exactly when the
text is not blank, has at most 255 bytes, the difficulty is listed and the
user id is positive. -/
theorem ValidateWord_Valid (word : Word) :
    (ValidateWord New word).Valid = true ↔
      Trim word.TextValue " " ≠ "" ∧ goLen word.TextValue ≤ 255 ∧
      word.Difficulty ∈ ["easy", "medium", "hard"] ∧ 0 < word.UserId := by
  have hnv : New.Valid = true := by decide
  simp only [ValidateWord, Valid_Check, hnv, Bool.true_and, Bool.and_eq_true,
    decide_eq_true_eq, includes_iff_mem]
  constructor
  · rintro ⟨⟨⟨a, b⟩, c⟩, d⟩
    exact ⟨a, b, c, d⟩
  · rintro ⟨a, b, c, d⟩
    exact ⟨⟨⟨a, b⟩, c⟩, d⟩

/-- The keys `ValidateWord` leaves in the error map. -/
theorem ValidateWord_hasKey (v : Validator) (word : Word) (k : String) :
    (ValidateWord v word).hasKey k =
      (v.hasKey k ||
        (!decide (Trim word.TextValue " " ≠ "") && decide (k = "text")) ||
        (!decide (goLen word.TextValue ≤ 255) && decide (k = "title")) ||
        (!includes ["easy", "medium", "hard"] word.Difficulty && decide (k = "difficulty")) ||
        (!decide (word.UserId > 0) && decide (k = "user_id"))) := by
  simp only [ValidateWord, hasKey_Check]

theorem deleteStmt_again (table : List Word) (id : Int) :
    (deleteStmt (deleteStmt table id).1 id).2 = 0 := by
  simp [deleteStmt, List.filter_filter]

theorem quintets_length (bits : List Nat) : (quintets bits).length = (bits.length + 4) / 5 := by
  induction bits using quintets.induct with
  | case1 a b c d e rest ih =>
    simp only [quintets, List.length_cons, ih]
    omega
  | case2 a b c d => simp [quintets]
  | case3 a b c => simp [quintets]
  | case4 a b => simp [quintets]
  | case5 a => simp [quintets]
  | case6 => rfl

theorem quintets_lt (bits : List Nat) (h : ∀ b ∈ bits, b < 2) : ∀ v ∈ quintets bits, v < 32 := by
  induction bits using quintets.induct with
  | case1 a b c d e rest ih =>
    intro v hv
    simp only [quintets, List.mem_cons] at hv
    have ha := h a (by simp)
    have hb := h b (by simp)
    have hc := h c (by simp)
    have hd := h d (by simp)
    have he := h e (by simp)
    rcases hv with rfl | hv
    · omega
    · exact ih (fun x hx => h x (by simp [hx])) v hv
  | case2 a b c d =>
    intro v hv
    have ha := h a (by simp)
    have hb := h b (by simp)
    have hc := h c (by simp)
    have hd := h d (by simp)
    simp only [quintets, List.mem_singleton] at hv
    omega
  | case3 a b c =>
    intro v hv
    have ha := h a (by simp)
    have hb := h b (by simp)
    have hc := h c (by simp)
    simp only [quintets, List.mem_singleton] at hv
    omega
  | case4 a b =>
    intro v hv
    have ha := h a (by simp)
    have hb := h b (by simp)
    simp only [quintets, List.mem_singleton] at hv
    omega
  | case5 a =>
    intro v hv
    have ha := h a (by simp)
    simp only [quintets, List.mem_singleton] at hv
    omega
  | case6 => intro v hv; simp [quintets] at hv

theorem byteBits_lt (src : List (Fin 256)) : ∀ b ∈ src.flatMap byteBits, b < 2 := by
  intro b hb
  simp only [List.mem_flatMap] at hb
  obtain ⟨x, _, hx⟩ := hb
  simp only [byteBits, List.mem_cons, List.mem_singleton, List.not_mem_nil, or_false] at hx
  omega

theorem byteBits_length (src : List (Fin 256)) : (src.flatMap byteBits).length = 8 * src.length := by
  induction src with
  | nil => rfl
  | cons a l ih =>
    simp only [List.flatMap_cons, List.length_append, ih]
    simp [byteBits]
    omega

theorem base32Char_range (v : Nat) (h : v < 32) :
    (('A' ≤ base32Char v ∧ base32Char v ≤ 'Z') ∨ ('2' ≤ base32Char v ∧ base32Char v ≤ '7')) ∧
    (base32Char v).toNat < 128 := by
  interval_cases v <;> decide

theorem goLen_ascii (s : String) (h : ∀ c ∈ s.data, c.toNat < 128) : goLen s = s.length := by
  obtain ⟨l⟩ := s
  unfold goLen
  simp only [String.length]
  induction l with
  | nil => rfl
  | cons c cs ih =>
    have hc : c.toNat < 128 := h c (by simp)
    have := ih (fun x hx => h x (by simp [hx]))
    simp only [List.map_cons, List.sum_cons, List.length_cons, this]
    simp [runeLen, hc]
    omega

theorem digitVal_digitChar (d : Nat) (h : d < 10) : digitVal (digitChar d) = some d := by
  interval_cases d <;> decide

theorem digitChar_not_sign (d : Nat) (h : d < 10) :
    digitChar d ≠ '-' ∧ digitChar d ≠ '+' := by
  interval_cases d <;> decide

theorem foldl_digits_ge (L : List Nat) (acc : Nat) :
    acc ≤ L.foldl (fun a d => a * 10 + d) acc := by
  induction L generalizing acc with
  | nil => exact Nat.le_refl _
  | cons d ds ih =>
    simp only [List.foldl_cons]
    exact Nat.le_trans (by omega) (ih (acc * 10 + d))

theorem parseUintLoop_digits (L : List Nat) (acc : Nat) (hd : ∀ d ∈ L, d < 10)
    (hlt : L.foldl (fun a d => a * 10 + d) acc < 9223372036854775808) :
    parseUintLoop (L.map digitChar) acc = .ok (L.foldl (fun a d => a * 10 + d) acc) := by
  induction L generalizing acc with
  | nil => rfl
  | cons d ds ih =>
    have hd10 : d < 10 := hd d (by simp)
    simp only [List.foldl_cons] at hlt ⊢
    have hge := foldl_digits_ge ds (acc * 10 + d)
    have h1 : ¬ acc ≥ 1844674407370955162 := by omega
    have h2 : ¬ acc * 10 + d > 18446744073709551615 := by omega
    simp only [List.map_cons, parseUintLoop, digitVal_digitChar d hd10, h1, h2, if_false]
    exact ih (acc * 10 + d) (fun x hx => hd x (by simp [hx])) hlt

theorem foldl_digits_eq (n : Nat) :
    (Nat.digits 10 n).reverse.foldl (fun a d => a * 10 + d) 0 = n := by
  have h := Nat.ofDigits_digits 10 n
  rw [Nat.ofDigits_eq_foldr] at h
  rw [List.foldl_reverse]
  have e : (fun (x y : Nat) => y * 10 + x) = (fun (x y : Nat) => (x : Nat) + 10 * y) := by
    funext x y
    omega
  rw [e]
  simpa using h

theorem formatNat_data (n : Nat) :
    ∃ L : List Nat, L ≠ [] ∧ (∀ d ∈ L, d < 10) ∧ (formatNat n).data = L.map digitChar ∧
      L.foldl (fun a d => a * 10 + d) 0 = n := by
  by_cases h0 : n = 0
  · subst h0
    exact ⟨[0], by simp, by simp, by decide, rfl⟩
  · refine ⟨(Nat.digits 10 n).reverse, ?_, ?_, ?_, foldl_digits_eq n⟩
    · simpa using Nat.digits_ne_nil_iff_ne_zero.mpr h0
    · intro d hd
      exact Nat.digits_lt_base (by decide) (List.mem_reverse.mp hd)
    · simp [formatNat, h0]

theorem ParseInt_formatInt (i : Int) (h0 : 0 ≤ i) (hmax : i ≤ maxInt) :
    ParseInt (formatInt i) = .ok i ∧ '-' ∉ (formatInt i).data := by
  obtain ⟨L, hne, hd, hdata, hval⟩ := formatNat_data i.toNat
  have hneg : ¬ i < 0 := by omega
  have hfi : formatInt i = formatNat i.toNat := by simp [formatInt, hneg]
  unfold maxInt at hmax
  have hlt : L.foldl (fun a d => a * 10 + d) 0 < 9223372036854775808 := by
    rw [hval]
    omega
  have hloop := parseUintLoop_digits L 0 hd hlt
  rw [hval] at hloop
  have hdash : '-' ∉ (formatInt i).data := by
    rw [hfi, hdata]
    intro hmem
    obtain ⟨d, hdL, hdc⟩ := List.mem_map.mp hmem
    exact (digitChar_not_sign d (hd d hdL)).1 hdc
  refine ⟨?_, hdash⟩
  cases L with
  | nil => exact absurd rfl hne
  | cons d ds =>
    have hd10 : d < 10 := hd d (by simp)
    obtain ⟨hs1, hs2⟩ := digitChar_not_sign d hd10
    have hto : ((i.toNat : Nat) : Int) = i := Int.toNat_of_nonneg h0
    have hnr : ¬ i.toNat ≥ 9223372036854775808 := by omega
    unfold ParseInt
    rw [hfi, hdata]
    simp only [List.map_cons, hs1, hs2, or_self, if_false, decide_False]
    rw [← List.map_cons, hloop]
    simp [hnr, hto]

theorem Split_ID_dash (t : String) (h : '-' ∉ t.data) : Split ("ID-" ++ t) '-' = ["ID", t] := by
  have hdata : ("ID-" ++ t).data = ['I', 'D'] ++ '-' :: t.data := by
    simp [String.data_append]
  have h1 : ∀ x ∈ ['I', 'D'], ¬ ((fun c => c == '-') x = true) := by decide
  have h2 : ∀ x ∈ t.data, ¬ ((fun c => c == '-') x = true) := by
    intro x hx hxe
    have : x = '-' := by simpa using hxe
    exact h (this ▸ hx)
  unfold Split List.splitOn
  rw [hdata, List.splitOnP_first _ _ h1 '-' (by decide) t.data, List.splitOnP_eq_single _ _ h2]
  rfl

theorem plainUnquote_plainQuote (s : String) (h1 : '"' ∉ s.data) (h2 : '\\' ∉ s.data)
    (h3 : '\n' ∉ s.data) : plainUnquote (plainQuote s) = some s := by
  have hdata : (plainQuote s).data = '"' :: (s.data ++ ['"']) := by
    simp [plainQuote, String.data_append]
  unfold plainUnquote
  rw [hdata]
  simp [h1, h2, h3]

theorem digitChar_plain (d : Nat) (h : d < 10) :
    digitChar d ≠ '"' ∧ digitChar d ≠ '\\' ∧ digitChar d ≠ '\n' := by
  interval_cases d <;> decide

theorem plainUnquote_plainQuote_ID (i : Int) (h0 : 0 ≤ i) :
    plainUnquote (plainQuote ("ID-" ++ formatInt i)) = some ("ID-" ++ formatInt i) := by
  obtain ⟨L, _, hd, hdata, _⟩ := formatNat_data i.toNat
  have hneg : ¬ i < 0 := by omega
  have hfi : formatInt i = formatNat i.toNat := by simp [formatInt, hneg]
  have hall : ∀ c ∈ ("ID-" ++ formatInt i).data, c ≠ '"' ∧ c ≠ '\\' ∧ c ≠ '\n' := by
    intro c hc
    rw [String.data_append, List.mem_append] at hc
    rcases hc with hc | hc
    · have : c = 'I' ∨ c = 'D' ∨ c = '-' := by simpa using hc
      rcases this with rfl | rfl | rfl <;> decide
    · rw [hfi, hdata] at hc
      obtain ⟨d, hdL, rfl⟩ := List.mem_map.mp hc
      exact digitChar_plain d (hd d hdL)
  exact plainUnquote_plainQuote _ (fun hm => (hall _ hm).1 rfl) (fun hm => (hall _ hm).2.1 rfl)
    (fun hm => (hall _ hm).2.2 rfl)

/-- What `listWordsHandler` lets through: for every query string,
`ValidateFilters` on the filters it assembles leaves no `sort` entry in the
error map exactly when the client's sort token is one of `id`, `text`,
`difficulty`, `-id`, `-text`, `-difficulty`, `text_value`, `-text_value` or
the empty string (replaced by the default `id`); a `sort` entry makes the
validator invalid. -/
theorem listWords_sort_accepted_iff (q : ListQuery) :
    ((ValidateFilters (listWordsFilters q).2 (listWordsFilters q).1).hasKey "sort" = false ↔
      q.sort ∈ ["", "id", "text", "difficulty", "-id", "-text", "-difficulty",
        "text_value", "-text_value"]) ∧
    ((ValidateFilters (listWordsFilters q).2 (listWordsFilters q).1).hasKey "sort" = true →
      (ValidateFilters (listWordsFilters q).2 (listWordsFilters q).1).Valid = false) := by
  obtain ⟨hs, hl⟩ := listWordsFilters_fst_sort q
  have hv := listWordsFilters_snd_sort q
  have hiff := remapped_permitted_iff q.sort
  rw [ValidateFilters_hasKey, ValidateFilters_Valid, hv, hs, hl]
  constructor
  · rw [← hiff]
    simp
  · intro h
    simp at h
    simp [h]

/-! ## The claims -/

/-- C1 (the code departs from the claim): when the conditional `UPDATE` yields
no row (`sql.ErrNoRows`), `WordModel.Update` returns `ErrRecordNotFound` for
every word, never `ErrEditConflict`; `updateWordHandler`, which tests for
`ErrEditConflict`, then answers a stale-version update with the 500 server
error response instead of the 409 edit conflict. -/
theorem Update_noRows_is_RecordNotFound (word : Word) :
    WordModel.Update (.error .sqlErrNoRows) word = (word, some .ErrRecordNotFound) ∧
    (WordModel.Update (.error .sqlErrNoRows) word).2 ≠ some .ErrEditConflict ∧
    updateWordHandler (some 1) (.ok ⟨1, 0, "lucid", "hard", [], 7, 2⟩)
      (some ⟨"", "hard", none, 0⟩) (.error .sqlErrNoRows) = .serverError ∧
    Response.status .serverError = 500 := by
  refine ⟨rfl, ?_, by decide, rfl⟩
  simp [WordModel.Update, errorsIs]

/-- C2 (the code departs from the claim): on a result set of one row whose
windowed count is 1, with page 1 and page size 1, `WordModel.GetAll` returns
`TotalRecords = 2` and `LastPage = 2`: every scan stores the count in
`totalRecords` and the `totalRecords++` that follows adds one to it. -/
theorem GetAll_total_is_count_plus_one :
    WordModel.GetAll (fun _ _ => ⟨none, [.ok (1, ⟨1, 0, "lucid", "medium", [], 7, 1⟩)], none⟩)
      "" "" ⟨1, 1, "id", listSortSafeList⟩ =
    .ok ([⟨1, 0, "lucid", "medium", [], 7, 1⟩],
      { CurrentPage := 1, PageSize := 1, FirstPage := 1, LastPage := 2, TotalRecords := 2 },
      none) := by
  decide

/-- C3 (amended): for every page at least 1, page size in [1, 1000] and
non-negative total with `totalRecords + pageSize - 1` not above the largest
64-bit `int`, `calculateMetadata` returns a `Metadata` whose `LastPage` is
`ceil(totalRecords / pageSize)`, the least `k` with `k * pageSize >= totalRecords`. -/
theorem calculateMetadata_lastPage_ceil (totalRecords page pageSize : Int)
    (_hpage : 1 ≤ page) (hps1 : 1 ≤ pageSize) (_hps2 : pageSize ≤ 1000)
    (htot : 0 ≤ totalRecords) (hmax : totalRecords + pageSize - 1 ≤ maxInt) :
    ∃ m, calculateMetadata totalRecords page pageSize = .ok m ∧
      m.LastPage = ⌈(totalRecords : ℚ) / (pageSize : ℚ)⌉ ∧
      totalRecords ≤ m.LastPage * pageSize ∧
      ∀ k : Int, totalRecords ≤ k * pageSize → m.LastPage ≤ k := by
  have hb : 0 < pageSize := by omega
  obtain ⟨h1, h2⟩ := ceil_div_least totalRecords pageSize hb
  rcases eq_or_lt_of_le htot with h0 | hpos
  · subst h0
    refine ⟨{}, by simp [calculateMetadata], ?_, ?_, ?_⟩
    · simp
    · simp
    · intro k hk
      show (0 : Int) ≤ k
      by_contra hneg
      push_neg at hneg
      nlinarith
  · refine ⟨_, calculateMetadata_exact totalRecords page pageSize hpos hps1 hmax, ?_, h1, h2⟩
    exact (ceil_div_eq totalRecords pageSize hb).symm

/-- Witness for C3: 21 records in pages of 20. -/
theorem calculateMetadata_lastPage_ceil_witness :
    ∃ m, calculateMetadata 21 1 20 = .ok m ∧ m.LastPage = ⌈((21 : Int) : ℚ) / ((20 : Int) : ℚ)⌉ ∧
      (21 : Int) ≤ m.LastPage * 20 ∧ ∀ k : Int, (21 : Int) ≤ k * 20 → m.LastPage ≤ k :=
  calculateMetadata_lastPage_ceil 21 1 20 (by decide) (by decide) (by decide) (by decide)
    (by decide)

/-- Counterexample to C3 as stated: with `totalRecords` the largest `int` and
page size 2 the sum `totalRecords + pageSize - 1` wraps around, and `LastPage`
is `-2^62`, which is neither the ceiling nor an upper bound of the quotient. -/
theorem calculateMetadata_lastPage_overflow :
    (1 : Int) ≤ 1 ∧ (1 : Int) ≤ 2 ∧ (2 : Int) ≤ 1000 ∧ 0 ≤ maxInt ∧
    ∃ m, calculateMetadata maxInt 1 2 = .ok m ∧ m.LastPage = -(2 ^ 62) ∧
      ¬ maxInt ≤ m.LastPage * 2 ∧
      m.LastPage ≠ ⌈(maxInt : ℚ) / ((2 : Int) : ℚ)⌉ := by
  refine ⟨by decide, by decide, by decide, by decide, ⟨1, 2, 1, -(2 ^ 62), maxInt⟩, by decide,
    rfl, by decide, ?_⟩
  have hb : (0 : Int) < 2 := by decide
  rw [ceil_div_eq maxInt 2 hb]
  decide

/-- C4: for every page and page size at least 1, `calculateMetadata` returns the
all-zero `Metadata` exactly when `totalRecords` is 0, and for every positive
`totalRecords` the result has `FirstPage = 1`, `CurrentPage = page`,
`PageSize = pageSize`, `TotalRecords = totalRecords`, so it differs from the
all-zero value. -/
theorem calculateMetadata_empty_iff (totalRecords page pageSize : Int)
    (_hpage : 1 ≤ page) (hps : 1 ≤ pageSize) :
    (calculateMetadata totalRecords page pageSize = .ok {} ↔ totalRecords = 0) ∧
    (0 < totalRecords →
      ∃ m, calculateMetadata totalRecords page pageSize = .ok m ∧ m.FirstPage = 1 ∧
        m.CurrentPage = page ∧ m.PageSize = pageSize ∧ m.TotalRecords = totalRecords ∧
        m ≠ {}) := by
  have hps0 : pageSize ≠ 0 := by omega
  constructor
  · constructor
    · intro h
      by_contra hne
      simp [calculateMetadata, hne, goDiv, hps0] at h
    · intro h
      simp [calculateMetadata, h]
  · intro hpos
    have hne : totalRecords ≠ 0 := by omega
    refine ⟨_, by simp only [calculateMetadata, hne, goDiv, hps0, if_false]; rfl,
      rfl, rfl, rfl, rfl, ?_⟩
    intro h
    have := congrArg Metadata.FirstPage h
    simp at this

/-- Witness for C4: 45 records, page 3, pages of 20. -/
theorem calculateMetadata_empty_iff_witness :
    (1 : Int) ≤ 3 ∧ (1 : Int) ≤ 20 ∧ (0 : Int) < 45 ∧
    ∃ m, calculateMetadata 45 3 20 = .ok m ∧ m.FirstPage = 1 ∧
      m.CurrentPage = 3 ∧ m.PageSize = 20 ∧ m.TotalRecords = 45 ∧ m ≠ {} :=
  ⟨by decide, by decide, by decide,
    (calculateMetadata_empty_iff 45 3 20 (by decide) (by decide)).2 (by decide)⟩

/-- C5 (the code departs from the claim): the client token `text_value`, the
storage column name and not one of the six tokens `id`, `text`, `difficulty`,
`-id`, `-text`, `-difficulty`, passes `ValidateFilters` in `listWordsHandler`:
only `text` and `-text` are remapped, and the safe list holds the storage
names. The handler goes on to call `GetAll`, which sorts by the column
`text_value`, and answers with the words instead of a validation failure. -/
theorem listWords_sort_text_value_accepted :
    "text_value" ∉ ["id", "text", "difficulty", "-id", "-text", "-difficulty"] ∧
    (listWordsFilters ⟨"", "", .absent, .absent, "text_value"⟩).1.SortToken = "text_value" ∧
    (ValidateFilters (listWordsFilters ⟨"", "", .absent, .absent, "text_value"⟩).2
      (listWordsFilters ⟨"", "", .absent, .absent, "text_value"⟩).1).Valid = true ∧
    Filters.sortColumn (listWordsFilters ⟨"", "", .absent, .absent, "text_value"⟩).1 =
      .ok "text_value" ∧
    Filters.sortDirection (listWordsFilters ⟨"", "", .absent, .absent, "text_value"⟩).1 =
      "ASC" ∧
    listWordsHandler (fun _ _ _ => .ok ([], {}, none)) ⟨"", "", .absent, .absent, "text_value"⟩ =
      .ok [.okWords [] {}] := by
  decide

/-- C6: for every validator and every `Filters` whose sort token is not in its
safe list, after `ValidateFilters` the validator is not valid and its error
map has a `sort` entry; and whenever `listWordsHandler` assembles such filters
it answers with the failed-validation response whatever `GetAll` would do, so
`GetAll` is not called. -/
theorem ValidateFilters_rejects_unlisted_sort (v : Validator) (f : Filters)
    (h : f.SortToken ∉ f.SortSafeList) :
    (ValidateFilters v f).Valid = false ∧ (ValidateFilters v f).hasKey "sort" = true ∧
    ∀ (getAll : String → String → Filters →
        Except String (List Word × Metadata × Option GoError)) (q : ListQuery),
      (listWordsFilters q).1 = f →
        listWordsHandler getAll q =
          .ok [.failedValidation (ValidateFilters (listWordsFilters q).2 f).Errors] := by
  have hp : IsPermittedValue f.SortToken f.SortSafeList = false := by
    cases hb : IsPermittedValue f.SortToken f.SortSafeList with
    | false => rfl
    | true => exact absurd ((IsPermittedValue_iff_mem _ _).mp hb) h
  have hvalid : ∀ w : Validator, (ValidateFilters w f).Valid = false := by
    intro w
    rw [ValidateFilters_Valid, hp]
    simp
  refine ⟨hvalid v, ?_, ?_⟩
  · rw [ValidateFilters_hasKey, hp]
    simp
  · intro getAll q hq
    unfold listWordsHandler
    have := hvalid (listWordsFilters q).2
    rw [← hq] at this ⊢
    simp [this]

/-- Witness for C6: the token `name` against the handler's safe list. -/
theorem ValidateFilters_rejects_unlisted_sort_witness :
    "name" ∉ listSortSafeList ∧
    (ValidateFilters New ⟨1, 20, "name", listSortSafeList⟩).Valid = false ∧
    (ValidateFilters New ⟨1, 20, "name", listSortSafeList⟩).hasKey "sort" = true ∧
    ∀ (getAll : String → String → Filters →
        Except String (List Word × Metadata × Option GoError)) (q : ListQuery),
      (listWordsFilters q).1 = ⟨1, 20, "name", listSortSafeList⟩ →
        listWordsHandler getAll q =
          .ok [.failedValidation
            (ValidateFilters (listWordsFilters q).2 ⟨1, 20, "name", listSortSafeList⟩).Errors] :=
  ⟨by decide, ValidateFilters_rejects_unlisted_sort New ⟨1, 20, "name", listSortSafeList⟩
    (by decide)⟩

/-- C7: `sortColumn` panics exactly when the sort token is not in the safe
list; hence for filters that `ValidateFilters` leaves valid on a fresh
validator `sortColumn` returns a column, and `GetAll` on them returns without
a panic for every answer of the database. -/
theorem sortColumn_panics_iff (f : Filters) :
    ((∃ msg, f.sortColumn = .error msg) ↔ f.SortToken ∉ f.SortSafeList) ∧
    ((ValidateFilters New f).Valid = true →
      (∃ column, f.sortColumn = .ok column) ∧
      ∀ (db : String → String × String × Int × Int → RowsResult) (text difficulty : String),
        ∃ r, WordModel.GetAll db text difficulty f = .ok r) := by
  have hcol := sortColumnLoop_eq f.SortToken f.SortSafeList
  constructor
  · unfold Filters.sortColumn
    rw [hcol]
    by_cases hm : f.SortToken ∈ f.SortSafeList <;> simp [hm]
  · intro hv
    rw [ValidateFilters_Valid] at hv
    simp only [Bool.and_eq_true, decide_eq_true_eq] at hv
    obtain ⟨⟨⟨⟨⟨_, _⟩, _⟩, hps⟩, _⟩, hperm⟩ := hv
    have hm : f.SortToken ∈ f.SortSafeList := (IsPermittedValue_iff_mem _ _).mp hperm
    have hok : f.sortColumn = .ok (TrimPrefix f.SortToken "-") := by
      unfold Filters.sortColumn
      rw [hcol]
      simp [hm]
    refine ⟨⟨_, hok⟩, ?_⟩
    intro db text difficulty
    have hmeta : ∀ t, ∃ m, calculateMetadata t f.Page f.PageSize = .ok m :=
      fun t => calculateMetadata_ok t f.Page f.PageSize (by omega)
    unfold WordModel.GetAll
    rw [hok]
    simp only
    cases (db (getAllQuery (TrimPrefix f.SortToken "-") f.sortDirection)
      (text, difficulty, f.limit, f.offset)).queryErr with
    | some err => exact ⟨_, rfl⟩
    | none =>
      simp only
      cases scanRows (db (getAllQuery (TrimPrefix f.SortToken "-") f.sortDirection)
        (text, difficulty, f.limit, f.offset)).rows [] 0 with
      | error err => exact ⟨_, rfl⟩
      | ok p =>
        obtain ⟨words, total⟩ := p
        simp only
        cases (db (getAllQuery (TrimPrefix f.SortToken "-") f.sortDirection)
          (text, difficulty, f.limit, f.offset)).rowsErr with
        | some err => exact ⟨_, rfl⟩
        | none =>
          obtain ⟨m, hm'⟩ := hmeta total
          simp only [hm']
          exact ⟨_, rfl⟩

/-- Witness for C7: page 2 of 20, sorted by `-text_value`. -/
theorem sortColumn_panics_iff_witness :
    (ValidateFilters New ⟨2, 20, "-text_value", listSortSafeList⟩).Valid = true ∧
    ∃ column, Filters.sortColumn ⟨2, 20, "-text_value", listSortSafeList⟩ = .ok column :=
  ⟨by decide, ((sortColumn_panics_iff ⟨2, 20, "-text_value", listSortSafeList⟩).2 (by decide)).1⟩

/-- C8: for every `Filters` whose sort token is in the safe list, `sortColumn`
returns the token without its leading `-` (the token itself when it has
none), `sortDirection` is `DESC` when the token starts with `-` and `ASC`
otherwise, and the token is `-` or nothing, by direction, followed by the column. -/
theorem sortColumn_sortDirection_split (f : Filters) (h : f.SortToken ∈ f.SortSafeList) :
    ∃ column, f.sortColumn = .ok column ∧
      ((∃ rest, f.SortToken = "-" ++ rest) → f.SortToken = "-" ++ column ∧
        f.sortDirection = "DESC") ∧
      ((¬ ∃ rest, f.SortToken = "-" ++ rest) → column = f.SortToken ∧
        f.sortDirection = "ASC") ∧
      f.SortToken = (if f.sortDirection = "DESC" then "-" else "") ++ column := by
  obtain ⟨hT, hF⟩ := HasPrefix_dash f.SortToken
  refine ⟨TrimPrefix f.SortToken "-", ?_, ?_⟩
  · unfold Filters.sortColumn
    rw [sortColumnLoop_eq]
    simp [h]
  · cases hp : HasPrefix f.SortToken "-" with
    | true =>
      have hd : f.sortDirection = "DESC" := by simp [Filters.sortDirection, hp]
      refine ⟨fun _ => ⟨hT hp, hd⟩, fun hn => absurd ⟨_, hT hp⟩ hn, ?_⟩
      rw [hd]
      simpa using hT hp
    | false =>
      have hd : f.sortDirection = "ASC" := by simp [Filters.sortDirection, hp]
      obtain ⟨he, hn⟩ := hF hp
      refine ⟨fun hex => absurd hex hn, fun _ => ⟨he, hd⟩, ?_⟩
      rw [hd, he]
      have : ¬ ("ASC" = "DESC") := by decide
      simp [this]

/-- Witness for C8: the token `-difficulty`. -/
theorem sortColumn_sortDirection_split_witness :
    "-difficulty" ∈ listSortSafeList ∧
    ∃ column, Filters.sortColumn ⟨1, 20, "-difficulty", listSortSafeList⟩ = .ok column ∧
      ((∃ rest, "-difficulty" = "-" ++ rest) → "-difficulty" = "-" ++ column ∧
        Filters.sortDirection ⟨1, 20, "-difficulty", listSortSafeList⟩ = "DESC") ∧
      ((¬ ∃ rest, "-difficulty" = "-" ++ rest) → column = "-difficulty" ∧
        Filters.sortDirection ⟨1, 20, "-difficulty", listSortSafeList⟩ = "ASC") ∧
      "-difficulty" =
        (if Filters.sortDirection ⟨1, 20, "-difficulty", listSortSafeList⟩ = "DESC"
          then "-" else "") ++ column :=
  ⟨by decide, sortColumn_sortDirection_split ⟨1, 20, "-difficulty", listSortSafeList⟩ (by decide)⟩

/-- C9: for every `Filters` whose sort token is in the safe list, after
`ValidateFilters` on a fresh validator the error map has a `page` entry iff
`Page` is outside [1, 10000000] and a `page_size` entry iff `PageSize` is
outside [1, 1000]; both are present when both bounds are violated, and the
validator is valid exactly when both are in range. -/
theorem ValidateFilters_page_bounds (f : Filters) (h : f.SortToken ∈ f.SortSafeList) :
    ((ValidateFilters New f).hasKey "page" = true ↔ ¬ (1 ≤ f.Page ∧ f.Page ≤ 10000000)) ∧
    ((ValidateFilters New f).hasKey "page_size" = true ↔
      ¬ (1 ≤ f.PageSize ∧ f.PageSize ≤ 1000)) ∧
    (¬ (1 ≤ f.Page ∧ f.Page ≤ 10000000) → ¬ (1 ≤ f.PageSize ∧ f.PageSize ≤ 1000) →
      (ValidateFilters New f).hasKey "page" = true ∧
      (ValidateFilters New f).hasKey "page_size" = true) ∧
    ((ValidateFilters New f).Valid = true ↔
      (1 ≤ f.Page ∧ f.Page ≤ 10000000) ∧ (1 ≤ f.PageSize ∧ f.PageSize ≤ 1000)) := by
  have hp : IsPermittedValue f.SortToken f.SortSafeList = true :=
    (IsPermittedValue_iff_mem _ _).mpr h
  have hn1 : New.hasKey "page" = false := by decide
  have hn2 : New.hasKey "page_size" = false := by decide
  have hnv : New.Valid = true := by decide
  have e1 : (decide ("page" = "page_size")) = false := by decide
  have e2 : (decide ("page_size" = "page")) = false := by decide
  have hpage : (ValidateFilters New f).hasKey "page" = true ↔
      ¬ (1 ≤ f.Page ∧ f.Page ≤ 10000000) := by
    rw [ValidateFilters_hasKey, hn1, hp, e1]
    simp
    omega
  have hsize : (ValidateFilters New f).hasKey "page_size" = true ↔
      ¬ (1 ≤ f.PageSize ∧ f.PageSize ≤ 1000) := by
    rw [ValidateFilters_hasKey, hn2, hp, e2]
    simp
    omega
  refine ⟨hpage, hsize, fun a b => ⟨hpage.mpr a, hsize.mpr b⟩, ?_⟩
  rw [ValidateFilters_Valid, hnv, hp]
  simp
  omega

/-- Witness for C9: page 0 with page size 1001 reports both fields. -/
theorem ValidateFilters_page_bounds_witness :
    "id" ∈ listSortSafeList ∧
    (ValidateFilters New ⟨0, 1001, "id", listSortSafeList⟩).hasKey "page" = true ∧
    (ValidateFilters New ⟨0, 1001, "id", listSortSafeList⟩).hasKey "page_size" = true :=
  ⟨by decide,
    ((ValidateFilters_page_bounds ⟨0, 1001, "id", listSortSafeList⟩ (by decide)).2.2.1
      (by decide) (by decide))⟩

/-- C10: for `Page` in [1, 10000000] and `PageSize` in [1, 1000], `limit` is
`PageSize` and `offset`, computed in 64-bit `int`, is exactly
`(Page - 1) * PageSize`; so it lies in [0, 9999999000] and is a multiple of `limit`. -/
theorem limit_offset_exact (f : Filters)
    (hp1 : 1 ≤ f.Page) (hp2 : f.Page ≤ 10000000)
    (hs1 : 1 ≤ f.PageSize) (hs2 : f.PageSize ≤ 1000) :
    f.limit = f.PageSize ∧ f.offset = (f.Page - 1) * f.PageSize ∧
    0 ≤ f.offset ∧ f.offset ≤ 9999999000 ∧ f.limit ∣ f.offset := by
  have hlo : 0 ≤ (f.Page - 1) * f.PageSize := Int.mul_nonneg (by omega) (by omega)
  have hhi : (f.Page - 1) * f.PageSize ≤ 9999999 * 1000 :=
    Int.mul_le_mul (by omega) hs2 (by omega) (by decide)
  have e1 : goSub f.Page 1 = f.Page - 1 := by
    unfold goSub
    exact wrapInt_of_range _ (by unfold minInt; omega) (by unfold maxInt; omega)
  have e2 : f.offset = (f.Page - 1) * f.PageSize := by
    unfold Filters.offset goMul
    rw [e1]
    exact wrapInt_of_range _ (by unfold minInt; omega) (by unfold maxInt; omega)
  refine ⟨rfl, e2, by rw [e2]; exact hlo, by rw [e2]; omega, ?_⟩
  rw [e2]
  exact Dvd.intro_left _ rfl

/-- Witness for C10: the last page of the largest size. -/
theorem limit_offset_exact_witness :
    Filters.limit ⟨10000000, 1000, "id", ["id"]⟩ = 1000 ∧
    Filters.offset ⟨10000000, 1000, "id", ["id"]⟩ = (10000000 - 1) * 1000 ∧
    0 ≤ Filters.offset ⟨10000000, 1000, "id", ["id"]⟩ ∧
    Filters.offset ⟨10000000, 1000, "id", ["id"]⟩ ≤ 9999999000 ∧
    Filters.limit ⟨10000000, 1000, "id", ["id"]⟩ ∣ Filters.offset ⟨10000000, 1000, "id", ["id"]⟩ :=
  limit_offset_exact ⟨10000000, 1000, "id", ["id"]⟩ (by decide) (by decide) (by decide)
    (by decide)

/-- C11 (amended): `WordModel.Insert` never looks at `Version`. For every
database, word and version value, inserting the word with that `Version`
returns the same error as inserting it with its own, sends the same statement
arguments, and hands back the same word with `Version` left as supplied. -/
theorem Insert_ignores_Version
    (db : String × String × List String × Int → Except GoError (Int × Int))
    (word : Word) (version : Int) :
    (WordModel.Insert db { word with Version := version }).2 = (WordModel.Insert db word).2 ∧
    (WordModel.Insert db { word with Version := version }).1 =
      { (WordModel.Insert db word).1 with Version := version } := by
  unfold WordModel.Insert
  simp only
  cases db (word.TextValue, word.Difficulty, word.RelatedWords, word.UserId) with
  | error err => exact ⟨rfl, rfl⟩
  | ok p => exact ⟨rfl, rfl⟩

/-- Counterexample to C11 as stated: a word whose `Version` is 5 is inserted
when the statement succeeds; `Insert` returns `nil` and fills in the id and
creation time of the new row. -/
theorem Insert_accepts_nonzero_Version :
    (5 : Int) ≠ 0 ∧
    WordModel.Insert (fun _ => .ok (9, 100)) ⟨0, 0, "lucid", "medium", [], 7, 5⟩ =
      (⟨9, 100, "lucid", "medium", [], 7, 5⟩, none) := by
  decide

/-- C12 (the code departs from the claim): a word whose text is 64 characters
of four bytes each (256 bytes), not blank, with difficulty `easy` and user id
1, satisfies the four invariants and is rejected: `len` counts bytes, while
the message of the check speaks of characters. -/
theorem ValidateWord_rejects_short_multibyte_text :
    (String.mk (List.replicate 64 '😀')).length = 64 ∧
    Trim (String.mk (List.replicate 64 '😀')) " " ≠ "" ∧
    goLen (String.mk (List.replicate 64 '😀')) = 256 ∧
    (ValidateWord New ⟨0, 0, String.mk (List.replicate 64 '😀'), "easy", [], 1, 0⟩).Errors =
      [("title", "word text must be 255 or less characters")] ∧
    (ValidateWord New ⟨0, 0, String.mk (List.replicate 64 '😀'), "easy", [], 1, 0⟩).Valid =
      false := by
  decide

set_option maxRecDepth 20000 in
/-- C13 (the code departs from the claim): for a word whose only violation is
a text of 256 bytes, the error map after `ValidateWord` on a fresh validator
is the single entry keyed `title`; there is no entry keyed `text`. -/
theorem ValidateWord_length_error_keyed_title :
    goLen (String.mk (List.replicate 256 'a')) = 256 ∧
    (ValidateWord New ⟨0, 0, String.mk (List.replicate 256 'a'), "easy", [], 1, 0⟩).Errors =
      [("title", "word text must be 255 or less characters")] ∧
    (ValidateWord New ⟨0, 0, String.mk (List.replicate 256 'a'), "easy", [], 1, 0⟩).hasKey
      "text" = false := by
  decide

/-- C14: for every id below 1 and every answer the store could give,
`WordModel.Get` returns `ErrRecordNotFound` without consulting that answer,
the same error as for a missing row. -/
theorem Get_below_one_is_RecordNotFound (scan : Except GoError Word) (id : Int) (h : id < 1) :
    WordModel.Get scan id = .error .ErrRecordNotFound ∧
    WordModel.Get scan id = WordModel.Get (.error .sqlErrNoRows) 1 := by
  have e : WordModel.Get scan id = .error .ErrRecordNotFound := by
    simp [WordModel.Get, h]
  exact ⟨e, by rw [e]; decide⟩

/-- Witness for C14: id 0 against a store that would return a row. -/
theorem Get_below_one_is_RecordNotFound_witness :
    (0 : Int) < 1 ∧
    WordModel.Get (.ok ⟨0, 0, "lucid", "medium", [], 7, 1⟩) 0 = .error .ErrRecordNotFound ∧
    WordModel.Get (.ok ⟨0, 0, "lucid", "medium", [], 7, 1⟩) 0 =
      WordModel.Get (.error .sqlErrNoRows) 1 :=
  ⟨by decide, Get_below_one_is_RecordNotFound (.ok ⟨0, 0, "lucid", "medium", [], 7, 1⟩) 0
    (by decide)⟩

/-- C15: for every id, `WordModel.Delete` returns `ErrRecordNotFound` when the
statement succeeds with zero rows affected and returns `nil` only when the
count of affected rows is not zero; on a table, the first delete returns `nil`
exactly when at least one row has the id, the second delete of the same id
returns `ErrRecordNotFound`, so the two never both return `nil`. -/
theorem Delete_zero_rows_is_RecordNotFound (id : Int) :
    WordModel.Delete (fun _ => .ok (.ok 0)) id = some .ErrRecordNotFound ∧
    (∀ exec : Int → Except GoError (Except GoError Int),
      WordModel.Delete exec id = none ↔ ∃ n, exec id = .ok (.ok n) ∧ n ≠ 0) ∧
    (∀ table : List Word,
      0 ≤ (deleteStmt table id).2 ∧
      (WordModel.Delete (tableExec table) id = none ↔ 1 ≤ (deleteStmt table id).2) ∧
      WordModel.Delete (tableExec (deleteStmt table id).1) id = some .ErrRecordNotFound ∧
      ¬ (WordModel.Delete (tableExec table) id = none ∧
        WordModel.Delete (tableExec (deleteStmt table id).1) id = none)) := by
  refine ⟨rfl, ?_, ?_⟩
  · intro exec
    unfold WordModel.Delete
    cases h : exec id with
    | error err => simp
    | ok r =>
      cases r with
      | error err => simp
      | ok n => by_cases hn : n = 0 <;> simp [hn]
  · intro table
    have hnn : 0 ≤ (deleteStmt table id).2 := by simp [deleteStmt]
    have h2 : WordModel.Delete (tableExec (deleteStmt table id).1) id =
        some .ErrRecordNotFound := by
      simp [WordModel.Delete, tableExec, deleteStmt_again]
    refine ⟨hnn, ?_, h2, ?_⟩
    · unfold WordModel.Delete tableExec
      by_cases h0 : (deleteStmt table id).2 = 0
      · simp [h0]
      · simp only [h0, if_false, true_iff]
        omega
    · rintro ⟨_, hb⟩
      rw [h2] at hb
      exact absurd hb (by simp)

/-- C16: for every 16-byte random input `generateToken` returns a token whose
`PlainText` has exactly 26 characters, each in `A`-`Z` or `2`-`7`, and
`ValidateTokenPlainText` on a fresh validator reports nothing for it. -/
theorem generateToken_plainText_shape (sha256Sum : String → List (Fin 256)) (now : Int)
    (randomBytes : List (Fin 256)) (userID ttl : Int) (scope : String)
    (h : randomBytes.length = 16) :
    ∃ token, generateToken sha256Sum now (.ok randomBytes) userID ttl scope = .ok token ∧
      token.PlainText.length = 26 ∧
      (∀ c ∈ token.PlainText.data, ('A' ≤ c ∧ c ≤ 'Z') ∨ ('2' ≤ c ∧ c ≤ '7')) ∧
      (ValidateTokenPlainText New token.PlainText).Errors = [] ∧
      (ValidateTokenPlainText New token.PlainText).Valid = true := by
  have hlen : (base32EncodeNoPadding randomBytes).length = 26 := by
    simp only [base32EncodeNoPadding, String.length, List.length_map, quintets_length,
      byteBits_length, h]
  have hchars : ∀ c ∈ (base32EncodeNoPadding randomBytes).data,
      (('A' ≤ c ∧ c ≤ 'Z') ∨ ('2' ≤ c ∧ c ≤ '7')) ∧ c.toNat < 128 := by
    intro c hc
    simp only [base32EncodeNoPadding, List.mem_map] at hc
    obtain ⟨v, hv, rfl⟩ := hc
    exact base32Char_range v (quintets_lt _ (byteBits_lt randomBytes) v hv)
  have hgo : goLen (base32EncodeNoPadding randomBytes) = 26 := by
    rw [goLen_ascii _ (fun c hc => (hchars c hc).2), hlen]
  have hne : base32EncodeNoPadding randomBytes ≠ "" := by
    intro e
    rw [e] at hlen
    exact absurd hlen (by decide)
  have herr : (ValidateTokenPlainText New (base32EncodeNoPadding randomBytes)).Errors = [] := by
    simp [ValidateTokenPlainText, Validator.Check, hne, hgo, New]
  refine ⟨_, rfl, hlen, fun c hc => (hchars c hc).1, herr, ?_⟩
  simp [Validator.Valid, herr]

/-- Witness for C16: sixteen bytes `0xFF`. -/
theorem generateToken_plainText_shape_witness :
    (List.replicate 16 (255 : Fin 256)).length = 16 ∧
    ∃ token, generateToken (fun _ => []) 0 (.ok (List.replicate 16 (255 : Fin 256))) 7 3600
        "authentication" = .ok token ∧
      token.PlainText.length = 26 ∧
      (∀ c ∈ token.PlainText.data, ('A' ≤ c ∧ c ≤ 'Z') ∨ ('2' ≤ c ∧ c ≤ '7')) ∧
      (ValidateTokenPlainText New token.PlainText).Errors = [] ∧
      (ValidateTokenPlainText New token.PlainText).Valid = true :=
  ⟨by decide, generateToken_plainText_shape (fun _ => []) 0 (List.replicate 16 (255 : Fin 256))
    7 3600 "authentication" (by decide)⟩

/-- C17 (the code departs from the claim): for the JSON input `"ID-abc"`, a
quoted string that is not `ID`, a dash and a number, `UnmarshalJSON` leaves
the receiver unchanged and returns the `*strconv.NumError` of `ParseInt`, not
`ErrInvalidUserIdFormat`. -/
theorem UnmarshalJSON_nonnumeric_is_NumError (recv : Int) :
    plainUnquote "\"ID-abc\"" = some "ID-abc" ∧
    UserID.UnmarshalJSON plainUnquote recv "\"ID-abc\"" =
      (recv, some (.numError "abc" .ErrSyntax)) ∧
    (UserID.UnmarshalJSON plainUnquote recv "\"ID-abc\"").2 ≠
      some .ErrInvalidUserIdFormat := by
  have hu : plainUnquote "\"ID-abc\"" = some "ID-abc" := by decide
  have hs : Split "ID-abc" '-' = ["ID", "abc"] := by decide
  have hp : ParseInt "abc" = .error .ErrSyntax := by decide
  have e : UserID.UnmarshalJSON plainUnquote recv "\"ID-abc\"" =
      (recv, some (.numError "abc" .ErrSyntax)) := by
    simp [UserID.UnmarshalJSON, hu, hs, hp]
  refine ⟨hu, e, ?_⟩
  rw [e]
  simp

/-- C18: for every `UserID` `i` from 0 to the largest `int64`, when
`strconv.Unquote` gives back the text `strconv.Quote` was given,
`UnmarshalJSON` applied to the output of `MarshalJSON(i)` succeeds and sets
the receiver to `i`. -/
theorem UserID_json_roundtrip (quote : String → String) (unquote : String → Option String)
    (i recv : Int) (h0 : 0 ≤ i) (hmax : i ≤ maxInt)
    (hq : unquote (quote ("ID-" ++ formatInt i)) = some ("ID-" ++ formatInt i)) :
    UserID.UnmarshalJSON unquote recv (UserID.MarshalJSON quote i) = (i, none) := by
  obtain ⟨hp, hdash⟩ := ParseInt_formatInt i h0 hmax
  have hs := Split_ID_dash (formatInt i) hdash
  simp [UserID.UnmarshalJSON, UserID.MarshalJSON, hq, hs, hp]

/-- Witness for C18: the id 42 with the quoting of escape-free text. -/
theorem UserID_json_roundtrip_witness :
    (0 : Int) ≤ 42 ∧ (42 : Int) ≤ maxInt ∧
    UserID.UnmarshalJSON plainUnquote 0 (UserID.MarshalJSON plainQuote 42) = (42, none) :=
  ⟨by decide, by decide,
    UserID_json_roundtrip plainQuote plainUnquote 42 0 (by decide) (by decide)
      (plainUnquote_plainQuote_ID 42 (by decide))⟩

end Kite
